import Mathlib

/-!
# Verification of the tejolote snapshot/delta engine

Shallow embedding of the core of the tejolote build observer:

* the `Snapshot`/`Artifact` data model and `Snapshot.Delta`
  (pkg/watcher, `start.go`),
* the `Watcher.Watch` poll loop,
* the per-entry classification of the GCS object-storage listing
  (`syncGCSPrefix` in the GCS driver),
* `GCS.Snap` configuration checking,
* the VCS material construction of the `start attestation` command.

Go maps are modelled as association lists; the list order stands for the
(unspecified) iteration order of a Go map, and the well-formedness
predicates below capture the key uniqueness that Go maps guarantee.
-/

namespace Tejolote

/-- `run.Artifact`: identity, recorded time and a checksum map
(algorithm → hex digest).  Go's `time.Time` comparison with `!=` is
modelled by an integer timestamp; the `map[string]string` checksum map is
an association list. -/
structure Artifact where
  Path : String
  Time : Int
  Checksum : List (String × String)
deriving DecidableEq, Repr

/-- `type Snapshot map[string]run.Artifact`, modelled as an association
list from artifact identity to `Artifact`.  The list order models the
iteration order Go uses when ranging over the map. -/
abbrev Snapshot := List (String × Artifact)

/-- Go map indexing `m[k]` (with its `ok` flag): first binding of `k`. -/
def lookupStr {α : Type} : List (String × α) → String → Option α
  | [], _ => none
  | (k, v) :: rest, key => if k = key then some v else lookupStr rest key

/-- Key uniqueness that a Go map guarantees by construction: snapshot
keys are unique and every artifact's checksum map has unique keys. -/
def MapWF (s : Snapshot) : Prop :=
  (s.map Prod.fst).Nodup ∧ ∀ pa ∈ s, (pa.2.Checksum.map Prod.fst).Nodup

/-- Every snapshot entry records its own key as the artifact `Path`
(the drivers store `snap[path] = a` with `a.Path = path`). -/
def PathWF (s : Snapshot) : Prop := ∀ pa ∈ s, pa.2.Path = pa.1

instance : DecidablePred MapWF := fun s => by unfold MapWF; infer_instance

instance : DecidablePred PathWF := fun s => by unfold PathWF; infer_instance

/-- The inner loop of `Snapshot.Delta`:
`for algo, val := range checksum { if fv, ok := f.Checksum[algo]; ok { if fv != val { ...; break } } }`.
True iff some algorithm of the pre-entry's checksum map is present in the
post-entry's map with a different value. -/
def checksumChanged (preCk postCk : List (String × String)) : Bool :=
  preCk.any fun av =>
    match lookupStr postCk av.1 with
    | some fv => decide (fv ≠ av.2)
    | none => false

/-- The mutable state of the `Delta` procedure: the two snapshots reached
through the receiver and argument pointers, and the `results` slice. -/
structure DeltaState where
  snap : Snapshot
  post : Snapshot
  results : List Artifact
deriving Repr

/-- One iteration of the `for path, f := range *post` loop body of
`Snapshot.Delta`: append `f` when the identity is new, when the times
differ, or when a shared checksum algorithm has differing values. -/
def deltaBody (st : DeltaState) (path : String) (f : Artifact) : DeltaState :=
  match lookupStr st.snap path with
  | none => { st with results := st.results ++ [f] }
  | some a =>
    if a.Time ≠ f.Time then { st with results := st.results ++ [f] }
    else if checksumChanged a.Checksum f.Checksum then
      { st with results := st.results ++ [f] }
    else st

/-- The `range` loop of `Snapshot.Delta` over the entries of `post`. -/
def deltaLoop : List (String × Artifact) → DeltaState → DeltaState
  | [], st => st
  | (path, f) :: rest, st => deltaLoop rest (deltaBody st path f)

/-- `Snapshot.Delta` as a state-passing procedure: the state holds both
snapshot arguments (the code only ever reads them) and the result slice,
initially empty. -/
def DeltaProc (snap post : Snapshot) : DeltaState :=
  deltaLoop post { snap := snap, post := post, results := [] }

/-- `func (snap *Snapshot) Delta(post *Snapshot) []run.Artifact`:
the list of artifacts of `post` that are new or changed relative to
`snap`. -/
def Delta (snap post : Snapshot) : List Artifact :=
  (DeltaProc snap post).results

/-- The per-entry inclusion condition of `Delta`, read off the loop body:
included when absent from `snap`, or the time differs, or a shared
checksum differs. -/
def includeEntry (snap : Snapshot) (path : String) (f : Artifact) : Bool :=
  match lookupStr snap path with
  | none => true
  | some a =>
    if a.Time ≠ f.Time then true else checksumChanged a.Checksum f.Checksum

/-! ## The `Watcher.Watch` poll loop -/

/-- `run.Run`, restricted to the fields the poll loop touches. -/
structure Run where
  SpecURL : String
  IsRunning : Bool
deriving DecidableEq, Repr

/-- `Watcher.Watch`: while `r.IsRunning`, call `Builder.RefreshRun` (which
may fail, aborting the watch with a wrapped error) and sleep.  The
backend is modelled by `refresh`, whose first argument counts the calls
made so far (a backend answers each poll with new state); the sleep is a
no-op in the model.  The `fuel` argument bounds the number of iterations
the model may take; `none` means the loop did not finish within `fuel`
refresh calls.  On return, the second component is the total number of
refresh calls that were performed. -/
def watchLoop (refresh : Nat → Run → Except String Run) (r : Run) (k : Nat) :
    Nat → Option (Except String (Run × Nat))
  | 0 => if r.IsRunning then none else some (.ok (r, k))
  | Nat.succ fuel =>
    if r.IsRunning then
      match refresh k r with
      | .error e => some (.error ("refreshing run data: " ++ e))
      | .ok r₂ => watchLoop refresh r₂ (k + 1) fuel
    else some (.ok (r, k))

/-- The run states a backend produces under repeated refreshing: starting
from `r` after `k` earlier calls, `refreshStates refresh k r i` is the
state after `i` further refresh calls (an error, once hit, persists). -/
def refreshStates (refresh : Nat → Run → Except String Run) (k : Nat) (r : Run) :
    Nat → Except String Run
  | 0 => .ok r
  | Nat.succ i =>
    match refreshStates refresh k r i with
    | .error e => .error e
    | .ok s => refresh (k + i) s

/-- The running flag observed after `i` refresh calls, or `none` when a
refresh failed along the way. -/
def runningAt (refresh : Nat → Run → Except String Run) (k : Nat) (r : Run) (i : Nat) :
    Option Bool :=
  match refreshStates refresh k r i with
  | .error _ => none
  | .ok s => some s.IsRunning

/-- The backend flips `IsRunning` to false exactly at refresh call `m`
(counting from `k` earlier calls): every earlier state is a successful,
still-running refresh result, and the state after `m` calls is a
successful, no-longer-running one. -/
def FlipsAt (refresh : Nat → Run → Except String Run) (k : Nat) (r : Run) (m : Nat) : Prop :=
  (∀ i < m, runningAt refresh k r i = some true) ∧
  runningAt refresh k r m = some false

instance (refresh : Nat → Run → Except String Run) (k : Nat) (r : Run) (m : Nat) :
    Decidable (FlipsAt refresh k r m) := by
  unfold FlipsAt
  infer_instance

/-! ## GCS object-storage driver -/

/-- The result of the GCS driver (`syncGCSPrefix` loop body) handling one
listed entry. -/
inductive GCSEntryAction where
  /-- recurse into a sub-directory of the bucket -/
  | recurseInto (p : String)
  /-- heuristic skip of a directory-marker lookalike -/
  | skip
  /-- schedule the object for download -/
  | scheduleDownload (f : String)
  /-- nothing to do for this entry -/
  | ignore
deriving DecidableEq, Repr

/-- Go `strings.HasSuffix(s, "/")`. -/
def hasSlashSuffix (s : String) : Bool := s.data.getLast? = some '/'

/-- Go `strings.TrimSuffix(s, "/")`. -/
def trimSlashSuffix (s : String) : String :=
  if hasSlashSuffix s then String.mk s.data.dropLast else s

/-- Whether the first character of `s` is a slash. -/
def hasSlashStart (s : String) : Bool := s.data.head? = some '/'

/-- Go `strings.TrimPrefix(s, "/")`: drop one leading slash if present. -/
def dropLeadingSlash (s : String) : String :=
  if hasSlashStart s then String.mk s.data.tail else s

/-- The body of the listing loop of `GCS.syncGCSPrefix`, classifying one
listed entry given the visited set `seen`, the entry's sub-directory
component (`attrs.Prefix`), name, size and content type, in the order the
code checks them:

1. no name and an unvisited sub-directory component → recurse;
2. name ending in `/` whose trimmed form is unvisited → recurse;
3. named entry with `attrs.Size > 0` and content type `text/plain` →
   skip (the comment in the code says this is meant to drop the
   zero-length text files GCS uses as directory markers);
4. any other named entry → schedule `attrs.Prefix + attrs.Name` for
   download;
5. otherwise nothing happens. -/
def classifyGCSEntry (seen : List String) (attrsPfx attrsName : String)
    (size : Int) (contentType : String) : GCSEntryAction :=
  if attrsPfx ∉ seen ∧ attrsName = "" then .recurseInto attrsPfx
  else if hasSlashSuffix attrsName ∧ trimSlashSuffix attrsName ∉ seen then
    .recurseInto (trimSlashSuffix attrsName)
  else if attrsName ≠ "" ∧ size > 0 ∧ contentType = "text/plain" then .skip
  else if attrsName ≠ "" then .scheduleDownload (attrsPfx ++ attrsName)
  else .ignore

/-- The configuration of the `GCS` store (the storage client handle is
left out: synchronization is modelled by an oracle). -/
structure GCS where
  Bucket : String
  Path : String
  WorkDir : String
deriving DecidableEq, Repr

/-- Go `filepath.Join(a, b)` for the slash-separated, already-clean
inputs that occur in the GCS path rewrite. -/
def joinPath (a b : String) : String :=
  if b = "" then a else if hasSlashStart b then a ++ b else a ++ "/" ++ b

/-- Whether the first list is an initial segment of the second. -/
def listLeads : List Char → List Char → Bool
  | [], _ => true
  | _ :: _, [] => false
  | c :: cs, d :: ds => c = d && listLeads cs ds

/-- Go `strings.TrimPrefix(s, pfx)`. -/
def trimLeading (s pfx : String) : String :=
  if listLeads pfx.data s.data then String.mk (s.data.drop pfx.data.length) else s

/-- Go map assignment `snap[k] = a`: overwrite the binding of `k` when
present, otherwise add it. -/
def snapInsert (s : Snapshot) (k : String) (a : Artifact) : Snapshot :=
  if (lookupStr s k).isSome then
    s.map fun kv => if kv.1 = k then (k, a) else kv
  else s ++ [(k, a)]

/-- The final loop of `GCS.Snap`: rewrite every identity of the work-dir
snapshot back into the `gs://bucket/path` scheme. -/
def rewriteGCSPaths (gcs : GCS) (snapDir : Snapshot) : Snapshot :=
  snapDir.foldl
    (fun acc pa =>
      let path := "gs://" ++ joinPath gcs.Bucket (trimLeading pa.2.Path gcs.WorkDir)
      snapInsert acc path { pa.2 with Path := path })
    []

/-- `GCS.Snap`: check the configuration, synchronize the bucket contents
into the work directory, delegate to the Directory driver, and rewrite
the resulting identities into the bucket scheme.  The two effectful steps
are oracles: `syncPfx` models `syncGCSPrefix` (its second component is
the log of listing/download I/O it performed) and `dirSnap` models the
Directory-driver snapshot of the work directory (local I/O only).  The
returned log collects the listing/download I/O the call performed. -/
def GCS.Snap (gcs : GCS)
    (syncPfx : String → Except String Unit × List String)
    (dirSnap : String → Except String Snapshot) :
    Except String Snapshot × List String :=
  if gcs.Path = "" then (.error "gcs store has no path defined", [])
  else if gcs.Bucket = "" then (.error "gcs store has no bucket defined", [])
  else
    match syncPfx (dropLeadingSlash gcs.Path) with
    | (.error e, log) => (.error ("synching bucket: " ++ e), log)
    | (.ok _, log) =>
      match dirSnap gcs.WorkDir with
      | .error e => (.error ("snapshotting work directory: " ++ e), log)
      | .ok snapDir => (.ok (rewriteGCSPaths gcs snapDir), log)

/-! ## VCS material construction (`start attestation`) -/

/-- `slsa.ProvenanceMaterial`: a URI and a digest map. -/
structure ProvenanceMaterial where
  URI : String
  Digest : List (String × String)
deriving DecidableEq, Repr

/-- Go `strings.Cut(s, sep)` for a single-character separator: split
around the first occurrence of `sep`. -/
def cutChar : List Char → Char → Option (List Char × List Char)
  | [], _ => none
  | c :: rest, sep =>
    if c = sep then some ([], rest)
    else
      match cutChar rest sep with
      | some (l, r) => some (c :: l, r)
      | none => none

/-- `strings.Cut(vcsURL, "@")` on `String`. -/
def stringsCutAt (s : String) (sep : Char) : Option (String × String) :=
  (cutChar s.data sep).map fun lr => (String.mk lr.1, String.mk lr.2)

/-- The material-construction fragment of the `start attestation` command:
when the VCS locator is non-empty, append one material whose URI is the
locator; when the locator contains an `@`, the part before the first `@`
becomes the URI and the part after it becomes a `"sha1"` digest entry. -/
def appendVCSMaterial (materials : List ProvenanceMaterial) (vcsURL : String) :
    List ProvenanceMaterial :=
  if vcsURL = "" then materials
  else
    match stringsCutAt vcsURL '@' with
    | some (repoURL, repoDigest) =>
      materials ++ [{ URI := repoURL, Digest := [("sha1", repoDigest)] }]
    | none => materials ++ [{ URI := vcsURL, Digest := [] }]

/-! ## Association-list map lemmas -/

theorem lookupStr_mem {α : Type} {l : List (String × α)} {k : String} {v : α}
    (h : lookupStr l k = some v) : (k, v) ∈ l := by
  induction l with
  | nil => simp [lookupStr] at h
  | cons kv rest ih =>
    obtain ⟨k₂, v₂⟩ := kv
    by_cases hk : k₂ = k
    · subst hk
      simp [lookupStr] at h
      subst h
      exact List.mem_cons_self _ _
    · simp [lookupStr, hk] at h
      exact List.mem_cons_of_mem _ (ih h)

theorem mem_lookupStr {α : Type} {l : List (String × α)} {k : String} {v : α}
    (hnd : (l.map Prod.fst).Nodup) (h : (k, v) ∈ l) : lookupStr l k = some v := by
  induction l with
  | nil => simp at h
  | cons kv rest ih =>
    obtain ⟨k₂, v₂⟩ := kv
    simp only [List.map_cons, List.nodup_cons] at hnd
    rcases List.mem_cons.mp h with heq | hmem
    · obtain ⟨hk, hv⟩ := Prod.mk.injEq .. ▸ heq
      simp [lookupStr, hk.symm, hv]
    · have hne : k₂ ≠ k := by
        intro hkk
        exact hnd.1 (hkk ▸ (List.mem_map.mpr ⟨(k, v), hmem, rfl⟩))
      simp [lookupStr, hne, ih hnd.2 hmem]

theorem lookupStr_eq_none {α : Type} {l : List (String × α)} {k : String} :
    lookupStr l k = none ↔ ∀ v, (k, v) ∉ l := by
  induction l with
  | nil => simp [lookupStr]
  | cons kv rest ih =>
    obtain ⟨k₂, v₂⟩ := kv
    by_cases hk : k₂ = k
    · subst hk
      constructor
      · intro h
        exact absurd h (by simp [lookupStr])
      · intro h
        exact absurd (List.mem_cons_self (k₂, v₂) rest) (h v₂)
    · rw [show lookupStr ((k₂, v₂) :: rest) k = lookupStr rest k from by
        simp [lookupStr, hk]]
      rw [ih]
      constructor
      · intro h v hv
        rcases List.mem_cons.mp hv with heq | hmem
        · exact hk (congrArg Prod.fst heq).symm
        · exact h v hmem
      · intro h v hv
        exact h v (List.mem_cons_of_mem _ hv)

/-! ## Delta loop characterization -/

theorem deltaBody_snap (st : DeltaState) (p : String) (f : Artifact) :
    (deltaBody st p f).snap = st.snap := by
  unfold deltaBody
  split
  · rfl
  · split
    · rfl
    · split
      · rfl
      · rfl

theorem deltaBody_post (st : DeltaState) (p : String) (f : Artifact) :
    (deltaBody st p f).post = st.post := by
  unfold deltaBody
  split
  · rfl
  · split
    · rfl
    · split
      · rfl
      · rfl

theorem deltaBody_results (st : DeltaState) (p : String) (f : Artifact) :
    (deltaBody st p f).results =
      st.results ++ (if includeEntry st.snap p f then [f] else []) := by
  unfold deltaBody includeEntry
  split
  · simp
  · rename_i a heq
    by_cases ht : a.Time ≠ f.Time
    · simp [ht]
    · by_cases hc : checksumChanged a.Checksum f.Checksum
      · simp [ht, hc]
      · simp [ht, hc]

theorem deltaLoop_snap (entries : List (String × Artifact)) (st : DeltaState) :
    (deltaLoop entries st).snap = st.snap := by
  induction entries generalizing st with
  | nil => rfl
  | cons pf rest ih =>
    obtain ⟨p, f⟩ := pf
    rw [deltaLoop, ih, deltaBody_snap]

theorem deltaLoop_post (entries : List (String × Artifact)) (st : DeltaState) :
    (deltaLoop entries st).post = st.post := by
  induction entries generalizing st with
  | nil => rfl
  | cons pf rest ih =>
    obtain ⟨p, f⟩ := pf
    rw [deltaLoop, ih, deltaBody_post]

theorem deltaLoop_results (entries : List (String × Artifact)) (st : DeltaState) :
    (deltaLoop entries st).results =
      st.results ++
        (entries.filter fun pf => includeEntry st.snap pf.1 pf.2).map Prod.snd := by
  induction entries generalizing st with
  | nil => simp [deltaLoop]
  | cons pf rest ih =>
    obtain ⟨p, f⟩ := pf
    rw [deltaLoop, ih, deltaBody_snap, deltaBody_results]
    by_cases h : includeEntry st.snap p f
    · simp [h, List.filter_cons]
    · simp [h, List.filter_cons]

theorem delta_eq_filterMap (snap post : Snapshot) :
    Delta snap post =
      (post.filter fun pf => includeEntry snap pf.1 pf.2).map Prod.snd := by
  unfold Delta DeltaProc
  rw [deltaLoop_results]
  rfl

/-! ## Inclusion-condition characterization -/

theorem checksumChanged_iff_mem (ck fck : List (String × String)) :
    checksumChanged ck fck = true ↔
      ∃ av ∈ ck, ∃ fv, lookupStr fck av.1 = some fv ∧ fv ≠ av.2 := by
  unfold checksumChanged
  rw [List.any_eq_true]
  constructor
  · rintro ⟨av, hmem, hav⟩
    refine ⟨av, hmem, ?_⟩
    rcases hl : lookupStr fck av.1 with _ | fv
    · rw [hl] at hav
      simp at hav
    · rw [hl] at hav
      simp at hav
      exact ⟨fv, rfl, hav⟩
  · rintro ⟨av, hmem, fv, hl, hne⟩
    refine ⟨av, hmem, ?_⟩
    rw [hl]
    simpa using hne

theorem checksumChanged_iff (ck fck : List (String × String))
    (hnd : (ck.map Prod.fst).Nodup) :
    checksumChanged ck fck = true ↔
      ∃ algo v fv, lookupStr ck algo = some v ∧ lookupStr fck algo = some fv ∧
        fv ≠ v := by
  rw [checksumChanged_iff_mem]
  constructor
  · rintro ⟨⟨algo, v⟩, hmem, fv, hl, hne⟩
    exact ⟨algo, v, fv, mem_lookupStr hnd hmem, hl, hne⟩
  · rintro ⟨algo, v, fv, hck, hl, hne⟩
    exact ⟨(algo, v), lookupStr_mem hck, fv, hl, hne⟩

theorem includeEntry_iff (snap : Snapshot) (p : String) (f : Artifact)
    (hsnap : MapWF snap) :
    includeEntry snap p f = true ↔
      lookupStr snap p = none ∨
      ∃ a, lookupStr snap p = some a ∧
        (a.Time ≠ f.Time ∨
         ∃ algo v fv, lookupStr a.Checksum algo = some v ∧
           lookupStr f.Checksum algo = some fv ∧ fv ≠ v) := by
  unfold includeEntry
  rcases hl : lookupStr snap p with _ | a
  · simp
  · have hand : (a.Checksum.map Prod.fst).Nodup := hsnap.2 (p, a) (lookupStr_mem hl)
    by_cases ht : a.Time ≠ f.Time
    · simp [ht]
    · simp only [ht, if_false, Option.some.injEq, reduceCtorEq, false_or]
      rw [checksumChanged_iff _ _ hand]
      constructor
      · intro h
        exact ⟨a, rfl, Or.inr h⟩
      · rintro ⟨a₂, ha₂, h⟩
        subst ha₂
        rcases h with h | h
        · exact absurd h ht
        · exact h

/-- Membership in the Delta result, given the path-consistency of
`post`: exactly the entries of `post` passing the inclusion condition. -/
theorem mem_delta_iff (pre post : Snapshot) (f : Artifact)
    (hpath : PathWF post) :
    f ∈ Delta pre post ↔
      (f.Path, f) ∈ post ∧ includeEntry pre f.Path f = true := by
  rw [delta_eq_filterMap]
  constructor
  · intro h
    rcases List.mem_map.mp h with ⟨⟨p, g⟩, hmem, hg⟩
    obtain ⟨hmem₂, hcond⟩ := List.mem_filter.mp hmem
    subst hg
    have hp : g.Path = p := hpath (p, g) hmem₂
    show (g.Path, g) ∈ post ∧ includeEntry pre g.Path g = true
    rw [hp]
    exact ⟨hmem₂, hcond⟩
  · rintro ⟨hmem, hcond⟩
    exact List.mem_map.mpr ⟨(f.Path, f), List.mem_filter.mpr ⟨hmem, hcond⟩, rfl⟩

/-- `checksumChanged` of a checksum map with itself is false when its
keys are unique (every lookup returns the entry's own value). -/
theorem checksumChanged_self (ck : List (String × String))
    (hnd : (ck.map Prod.fst).Nodup) : checksumChanged ck ck = false := by
  rw [Bool.eq_false_iff]
  intro hc
  rcases (checksumChanged_iff_mem ck ck).mp hc with ⟨av, hmem, fv, hl, hne⟩
  have hself : lookupStr ck av.1 = some av.2 := mem_lookupStr hnd hmem
  injection hself.symm.trans hl with h
  exact hne h.symm

/-- `cutChar` splits at the first occurrence of the separator. -/
theorem cutChar_append (sep : Char) (l r : List Char) (hl : sep ∉ l) :
    cutChar (l ++ sep :: r) sep = some (l, r) := by
  induction l with
  | nil => simp [cutChar]
  | cons c rest ih =>
    have hc : ¬c = sep := fun h => hl (h ▸ List.mem_cons_self c rest)
    have hrest : sep ∉ rest := fun h => hl (List.mem_cons_of_mem _ h)
    simp [cutChar, hc, ih hrest]

/-! ## Poll-loop lemmas -/

theorem refreshStates_shift (refresh : Nat → Run → Except String Run) (k : Nat)
    (r r₂ : Run) (hr : refresh k r = .ok r₂) :
    ∀ i, refreshStates refresh k r (i + 1) = refreshStates refresh (k + 1) r₂ i := by
  intro i
  induction i with
  | zero => simp [refreshStates, hr]
  | succ i ih =>
    conv_lhs => rw [refreshStates]
    conv_rhs => rw [refreshStates]
    rw [ih]
    have harith : k + (i + 1) = (k + 1) + i := by omega
    rw [harith]

theorem runningAt_eq_some {refresh : Nat → Run → Except String Run}
    {k : Nat} {r : Run} {i : Nat} {b : Bool} (h : runningAt refresh k r i = some b) :
    ∃ s, refreshStates refresh k r i = .ok s ∧ s.IsRunning = b := by
  unfold runningAt at h
  rcases hh : refreshStates refresh k r i with e | s
  · rw [hh] at h
    cases h
  · rw [hh] at h
    exact ⟨s, rfl, Option.some.inj h⟩

theorem runningAt_shift (refresh : Nat → Run → Except String Run) (k : Nat)
    (r r₂ : Run) (hr : refresh k r = .ok r₂) (i : Nat) :
    runningAt refresh (k + 1) r₂ i = runningAt refresh k r (i + 1) := by
  unfold runningAt
  rw [refreshStates_shift refresh k r r₂ hr i]

theorem watchLoop_notRunning (refresh : Nat → Run → Except String Run)
    (r : Run) (k fuel : Nat) (h : r.IsRunning = false) :
    watchLoop refresh r k fuel = some (.ok (r, k)) := by
  cases fuel with
  | zero => simp [watchLoop, h]
  | succ fuel => simp [watchLoop, h]

theorem watchLoop_running (refresh : Nat → Run → Except String Run)
    (r : Run) (k fuel : Nat) (h : r.IsRunning = true) :
    watchLoop refresh r k (fuel + 1) =
      match refresh k r with
      | Except.error e => some (Except.error ("refreshing run data: " ++ e))
      | Except.ok r₂ => watchLoop refresh r₂ (k + 1) fuel := by
  simp [watchLoop, h]

theorem watchLoop_flip_aux (refresh : Nat → Run → Except String Run) :
    ∀ m r k fuel, FlipsAt refresh k r m → m ≤ fuel →
      ∃ s, refreshStates refresh k r m = .ok s ∧
        watchLoop refresh r k fuel = some (.ok (s, k + m)) := by
  intro m
  induction m with
  | zero =>
    intro r k fuel hflip _
    obtain ⟨s, hs, hrun⟩ := runningAt_eq_some hflip.2
    have hsr : r = s := by
      simpa [refreshStates] using hs
    subst hsr
    exact ⟨r, hs, watchLoop_notRunning refresh r k fuel hrun⟩
  | succ m ih =>
    intro r k fuel hflip hle
    obtain ⟨s₀, hs₀, hrun₀⟩ := runningAt_eq_some (hflip.1 0 (Nat.succ_pos m))
    have hs₀r : r = s₀ := by
      simpa [refreshStates] using hs₀
    subst hs₀r
    have hstep : ∃ b, runningAt refresh k r 1 = some b := by
      rcases Nat.lt_or_ge 1 (m + 1) with hlt | hge
      · exact ⟨true, hflip.1 1 hlt⟩
      · have hm : m = 0 := by omega
        subst hm
        exact ⟨false, hflip.2⟩
    obtain ⟨b, hb⟩ := hstep
    obtain ⟨s₁, hs₁, _⟩ := runningAt_eq_some hb
    have hr₂ : refresh k r = .ok s₁ := by
      simpa [refreshStates] using hs₁
    have hflip₂ : FlipsAt refresh (k + 1) s₁ m := by
      constructor
      · intro i hi
        rw [runningAt_shift refresh k r s₁ hr₂ i]
        exact hflip.1 (i + 1) (by omega)
      · rw [runningAt_shift refresh k r s₁ hr₂ m]
        exact hflip.2
    rcases fuel with _ | fuel
    · omega
    · obtain ⟨s, hs, hw⟩ := ih s₁ (k + 1) fuel hflip₂ (by omega)
      refine ⟨s, ?_, ?_⟩
      · rw [refreshStates_shift refresh k r s₁ hr₂ m]
        exact hs
      · rw [watchLoop_running refresh r k fuel hrun₀, hr₂]
        show watchLoop refresh s₁ (k + 1) fuel = some (.ok (s, k + (m + 1)))
        have harith : (k + 1) + m = k + (m + 1) := by omega
        rw [← harith]
        exact hw

/-! ## Claim theorems -/

/-- C1: for Snapshots `pre` and `post` of the same store, `Delta`
classifies each entry of `post` with this precedence: an identity absent
from `pre` is included as added; otherwise, if the recorded time of the
entry differs between `pre` and `post`, it is included as changed even
when all shared checksums are equal; otherwise, if any checksum algorithm
present in both entries has differing values, it is included as changed;
otherwise it is omitted from the result. -/
theorem delta_classification (pre post : Snapshot) (p : String) (f : Artifact)
    (hpre : MapWF pre) (hpath : PathWF post) (hmem : (p, f) ∈ post) :
    f ∈ Delta pre post ↔
      lookupStr pre p = none ∨
      ∃ a, lookupStr pre p = some a ∧
        (a.Time ≠ f.Time ∨
         ∃ algo v fv, lookupStr a.Checksum algo = some v ∧
           lookupStr f.Checksum algo = some fv ∧ fv ≠ v) := by
  have hp : f.Path = p := hpath (p, f) hmem
  rw [mem_delta_iff pre post f hpath, hp,
    includeEntry_iff pre p f hpre]
  simp [hmem]

theorem delta_classification_witness :
    (⟨"out/a", 2, [("SHA256", "aa")]⟩ : Artifact) ∈
      Delta [("out/a", ⟨"out/a", 1, [("SHA256", "aa")]⟩)]
        [("out/a", ⟨"out/a", 2, [("SHA256", "aa")]⟩)] :=
  (delta_classification
      [("out/a", ⟨"out/a", 1, [("SHA256", "aa")]⟩)]
      [("out/a", ⟨"out/a", 2, [("SHA256", "aa")]⟩)]
      "out/a" ⟨"out/a", 2, [("SHA256", "aa")]⟩
      (by decide) (by decide) (by decide)).mpr
    (Or.inr ⟨⟨"out/a", 1, [("SHA256", "aa")]⟩, by decide, Or.inl (by decide)⟩)

/-- C2, counterexample: two association lists representing the same
Snapshot map (they are permutations of each other, and both well-formed)
on which `Delta` returns differently ordered lists; the order follows the
map iteration order of `post` and is not canonical (the first result is
not sorted by identity). -/
theorem delta_order_counterexample :
    (([("b", ⟨"b", 0, []⟩), ("a", ⟨"a", 0, []⟩)] : Snapshot)).Perm
        [("a", ⟨"a", 0, []⟩), ("b", ⟨"b", 0, []⟩)] ∧
      MapWF [("b", ⟨"b", 0, []⟩), ("a", ⟨"a", 0, []⟩)] ∧
      PathWF [("b", ⟨"b", 0, []⟩), ("a", ⟨"a", 0, []⟩)] ∧
      MapWF [("a", ⟨"a", 0, []⟩), ("b", ⟨"b", 0, []⟩)] ∧
      PathWF [("a", ⟨"a", 0, []⟩), ("b", ⟨"b", 0, []⟩)] ∧
      Delta [] [("b", ⟨"b", 0, []⟩), ("a", ⟨"a", 0, []⟩)] =
        [⟨"b", 0, []⟩, ⟨"a", 0, []⟩] ∧
      Delta [] [("b", ⟨"b", 0, []⟩), ("a", ⟨"a", 0, []⟩)] ≠
        Delta [] [("a", ⟨"a", 0, []⟩), ("b", ⟨"b", 0, []⟩)] := by
  decide

/-- C2, amended: the multiset of artifacts returned by `Delta` is
determined by the pair of Snapshots: evaluating `Delta` on the same pair
under two different map iteration orders of `post` yields lists that are
permutations of each other.  The order within the list is the iteration
order of `post`, which is not canonical. -/
theorem delta_perm_invariant (pre post₁ post₂ : Snapshot)
    (h : post₁.Perm post₂) : (Delta pre post₁).Perm (Delta pre post₂) := by
  rw [delta_eq_filterMap, delta_eq_filterMap]
  exact (h.filter _).map Prod.snd

theorem delta_perm_invariant_witness :
    (Delta [] [("b", ⟨"b", 0, []⟩), ("a", ⟨"a", 0, []⟩)]).Perm
      (Delta [] [("a", ⟨"a", 0, []⟩), ("b", ⟨"b", 0, []⟩)]) :=
  delta_perm_invariant []
    [("b", ⟨"b", 0, []⟩), ("a", ⟨"a", 0, []⟩)]
    [("a", ⟨"a", 0, []⟩), ("b", ⟨"b", 0, []⟩)] (by decide)

/-- C3: `Delta` never reports deletions: every artifact in the result is
an entry of `post`, and an identity present in `pre` but absent from
`post` never appears as the identity of a result artifact. -/
theorem delta_no_deletions (pre post : Snapshot) (hpath : PathWF post) :
    (∀ f ∈ Delta pre post, (f.Path, f) ∈ post) ∧
    ∀ q ∈ pre.map Prod.fst, q ∉ post.map Prod.fst →
      ∀ f ∈ Delta pre post, f.Path ≠ q := by
  have hmem : ∀ f ∈ Delta pre post, (f.Path, f) ∈ post := fun f hf =>
    ((mem_delta_iff pre post f hpath).mp hf).1
  refine ⟨hmem, ?_⟩
  intro q _ hqpost f hf heq
  exact hqpost (heq ▸ List.mem_map.mpr ⟨(f.Path, f), hmem f hf, rfl⟩)

theorem delta_no_deletions_witness :
    (∀ f ∈ Delta [("gone", ⟨"gone", 1, []⟩)] [("kept", ⟨"kept", 2, []⟩)],
      (f.Path, f) ∈ ([("kept", ⟨"kept", 2, []⟩)] : Snapshot)) ∧
    ∀ q ∈ ([("gone", ⟨"gone", 1, []⟩)] : Snapshot).map Prod.fst,
      q ∉ ([("kept", ⟨"kept", 2, []⟩)] : Snapshot).map Prod.fst →
      ∀ f ∈ Delta [("gone", ⟨"gone", 1, []⟩)] [("kept", ⟨"kept", 2, []⟩)],
        f.Path ≠ q :=
  delta_no_deletions [("gone", ⟨"gone", 1, []⟩)] [("kept", ⟨"kept", 2, []⟩)]
    (by decide)

/-- C4: the self-diff of any Snapshot (a Go map, so with unique keys and
unique checksum keys) is empty. -/
theorem delta_self (S : Snapshot) (h : MapWF S) : Delta S S = [] := by
  rw [delta_eq_filterMap]
  have hfil : S.filter (fun pf => includeEntry S pf.1 pf.2) = [] := by
    rw [List.filter_eq_nil_iff]
    rintro ⟨p, f⟩ hmem
    have hl : lookupStr S p = some f := mem_lookupStr h.1 hmem
    have hck : checksumChanged f.Checksum f.Checksum = false :=
      checksumChanged_self f.Checksum (h.2 (p, f) hmem)
    simp [includeEntry, hl, hck]
  rw [hfil]
  rfl

theorem delta_self_witness :
    Delta [("out/a", ⟨"out/a", 7, [("SHA256", "aa"), ("SHA1", "bb")]⟩)]
      [("out/a", ⟨"out/a", 7, [("SHA256", "aa"), ("SHA1", "bb")]⟩)] = [] :=
  delta_self [("out/a", ⟨"out/a", 7, [("SHA256", "aa"), ("SHA1", "bb")]⟩)]
    (by decide)

/-- C5: if the backend flips `IsRunning` to false after `m` successful
refresh calls, the `Watch` loop (given at least `m` iterations of fuel)
returns without error, having performed exactly `m` refresh calls — none
after `IsRunning` was observed false; for `m = 0` (a run that is already
not running) it returns immediately with zero refresh calls. -/
theorem watch_poll_termination (refresh : Nat → Run → Except String Run)
    (r : Run) (m fuel : Nat) (hflip : FlipsAt refresh 0 r m) (hfuel : m ≤ fuel) :
    ∃ s, refreshStates refresh 0 r m = .ok s ∧ s.IsRunning = false ∧
      watchLoop refresh r 0 fuel = some (.ok (s, m)) := by
  obtain ⟨s, hs, hw⟩ := watchLoop_flip_aux refresh m r 0 fuel hflip hfuel
  obtain ⟨s₂, hs₂, hrun₂⟩ := runningAt_eq_some hflip.2
  have hss : s = s₂ := by
    rw [hs] at hs₂
    exact Except.ok.inj hs₂
  subst hss
  exact ⟨s, hs, hrun₂, by simpa using hw⟩

theorem watch_poll_termination_witness :
    FlipsAt (fun _ r => .ok { r with IsRunning := false }) 0
      ⟨"gcb://project/build", true⟩ 1 ∧
    ∃ s, refreshStates (fun _ r => .ok { r with IsRunning := false }) 0
        ⟨"gcb://project/build", true⟩ 1 = .ok s ∧ s.IsRunning = false ∧
      watchLoop (fun _ r => .ok { r with IsRunning := false })
        ⟨"gcb://project/build", true⟩ 0 1 = some (.ok (s, 1)) :=
  ⟨by decide,
   watch_poll_termination (fun _ r => .ok { r with IsRunning := false })
     ⟨"gcb://project/build", true⟩ 1 1 (by decide) (by decide)⟩

/-- C6 (code bug): the listing loop of the GCS driver is documented to
skip the zero-length `text/plain` objects GCS uses as directory markers
and download every other real object, but the code tests
`attrs.Size > 0`: a zero-length plain-text non-marker object is scheduled
for download, while a real plain-text object of positive size is
skipped. -/
theorem gcs_marker_heuristic_inverted :
    classifyGCSEntry [] "" "marker.txt" 0 "text/plain" =
      GCSEntryAction.scheduleDownload "marker.txt" ∧
    classifyGCSEntry [] "" "artifact.txt" 9 "text/plain" =
      GCSEntryAction.skip := by
  decide

/-- C7: when the GCS store has an empty `Bucket` or an empty `Path`,
`Snap` fails with an error before performing any listing or download I/O
(the event log is empty) and returns no partial Snapshot. -/
theorem gcs_snap_config_error (gcs : GCS)
    (syncPfx : String → Except String Unit × List String)
    (dirSnap : String → Except String Snapshot)
    (h : gcs.Bucket = "" ∨ gcs.Path = "") :
    ∃ e, GCS.Snap gcs syncPfx dirSnap = (.error e, []) := by
  unfold GCS.Snap
  by_cases hp : gcs.Path = ""
  · exact ⟨"gcs store has no path defined", by simp [hp]⟩
  · have hb : gcs.Bucket = "" := h.resolve_right hp
    exact ⟨"gcs store has no bucket defined", by simp [hp, hb]⟩

theorem gcs_snap_config_error_witness :
    ∃ e, GCS.Snap ⟨"", "/outputs", "/tmp/work"⟩
        (fun p => (.ok (), ["list " ++ p]))
        (fun _ => .ok []) = (.error e, []) :=
  gcs_snap_config_error ⟨"", "/outputs", "/tmp/work"⟩
    (fun p => (.ok (), ["list " ++ p])) (fun _ => .ok []) (Or.inl rfl)

/-- C8: when the VCS locator contains an `@` separator, the material
appended to the predicate has URI equal to the part of the locator left
of the first `@`, and a digest map with exactly one entry, under
algorithm key `"sha1"`, equal to the part right of that separator. -/
theorem vcs_material_sha1 (vcsURL : String) (materials : List ProvenanceMaterial)
    (l r : List Char) (hsplit : vcsURL.data = l ++ '@' :: r) (hl : '@' ∉ l) :
    appendVCSMaterial materials vcsURL =
      materials ++ [{ URI := String.mk l, Digest := [("sha1", String.mk r)] }] := by
  have hne : vcsURL ≠ "" := by
    intro h
    rw [h] at hsplit
    have : ([] : List Char) = l ++ '@' :: r := hsplit
    exact absurd this.symm (by simp)
  unfold appendVCSMaterial stringsCutAt
  rw [hsplit, cutChar_append '@' l r hl]
  simp [hne]

theorem vcs_material_sha1_witness :
    appendVCSMaterial [] "https://github.com/x/y@cafe" =
      [{ URI := "https://github.com/x/y", Digest := [("sha1", "cafe")] }] := by
  have h := vcs_material_sha1 "https://github.com/x/y@cafe" []
    "https://github.com/x/y".data "cafe".data (by decide) (by decide)
  rw [h]
  decide

/-- C9: `Delta` never mutates its inputs: after the procedure returns,
the state reached through the receiver and the argument still holds
exactly the identity-to-Artifact mappings it held before the call. -/
theorem delta_inputs_unchanged (snap post : Snapshot) :
    (DeltaProc snap post).snap = snap ∧ (DeltaProc snap post).post = post :=
  ⟨deltaLoop_snap post _, deltaLoop_post post _⟩

/-- C10: each entry of `post` appears at most once in the result, and an
entry with equal time whose shared checksum algorithms differ — even in
several algorithms at once — is included exactly once. -/
theorem delta_included_once (pre post : Snapshot) (p : String) (f a : Artifact)
    (hpost : MapWF post) (hpath : PathWF post)
    (hmem : (p, f) ∈ post) (hlk : lookupStr pre p = some a) (ht : a.Time = f.Time)
    (hdiff : ∃ algo v fv, lookupStr a.Checksum algo = some v ∧
      lookupStr f.Checksum algo = some fv ∧ fv ≠ v) :
    (∀ g, (Delta pre post).count g ≤ 1) ∧ (Delta pre post).count f = 1 := by
  have hnodup : (Delta pre post).Nodup := by
    rw [delta_eq_filterMap]
    refine List.Nodup.map_on ?_ ((List.Nodup.of_map Prod.fst hpost.1).filter _)
    intro x hx y hy hxy
    have hxp : x.2.Path = x.1 := hpath x (List.mem_of_mem_filter hx)
    have hyp : y.2.Path = y.1 := hpath y (List.mem_of_mem_filter hy)
    have h1 : x.1 = y.1 := by rw [← hxp, ← hyp, hxy]
    exact Prod.ext h1 hxy
  have hp : f.Path = p := hpath (p, f) hmem
  have hinc : includeEntry pre p f = true := by
    have hcc : checksumChanged a.Checksum f.Checksum = true := by
      rw [checksumChanged_iff_mem]
      obtain ⟨algo, v, fv, h1, h2, hne⟩ := hdiff
      exact ⟨(algo, v), lookupStr_mem h1, fv, h2, hne⟩
    simp [includeEntry, hlk, ht, hcc]
  have hf : f ∈ Delta pre post :=
    (mem_delta_iff pre post f hpath).mpr ⟨hp ▸ hmem, hp ▸ hinc⟩
  exact ⟨fun g => List.nodup_iff_count_le_one.mp hnodup g,
    List.count_eq_one_of_mem hnodup hf⟩

theorem delta_included_once_witness :
    (Delta [("out/a", ⟨"out/a", 5, [("SHA256", "x"), ("SHA1", "y")]⟩)]
      [("out/a", ⟨"out/a", 5, [("SHA256", "p"), ("SHA1", "q")]⟩)]).count
        ⟨"out/a", 5, [("SHA256", "p"), ("SHA1", "q")]⟩ = 1 :=
  (delta_included_once
    [("out/a", ⟨"out/a", 5, [("SHA256", "x"), ("SHA1", "y")]⟩)]
    [("out/a", ⟨"out/a", 5, [("SHA256", "p"), ("SHA1", "q")]⟩)]
    "out/a" ⟨"out/a", 5, [("SHA256", "p"), ("SHA1", "q")]⟩
    ⟨"out/a", 5, [("SHA256", "x"), ("SHA1", "y")]⟩
    (by decide) (by decide) (by decide) (by decide) (by decide)
    ⟨"SHA256", "x", "p", by decide, by decide, by decide⟩).2

end Tejolote
